import Mathlib

/-!
Verification development for the rusty-journal task store (src/tasks.rs).

The Rust program persists a journal as a JSON array of task objects in a
single file.  We model file contents as `List Char`, tasks with integer
(epoch-second) timestamps, and each store operation as a function from the
file-system state (`Option (List Char)`, `none` meaning the file does not
exist) to the new state together with an optional error, mirroring the
sequence of file effects in the source:

* `collect_task` models `collect_task` in tasks.rs: it runs the JSON parse
  and turns an end-of-input parse error into the empty list, as the Rust
  code does with `Err(e) if e.is_eof() => Vec::new()`.
* `add_task` opens with `create(true)` (a missing file becomes empty), and
  writes the serialized appended list from offset 0 WITHOUT truncating,
  exactly as in the source (there is no `set_len(0)` in `add_task`).
* `complete_task` / `edit_task` open without `create`, check the 1-based
  position against the incomplete sub-sequence before any write, and on
  success truncate (`set_len(0)`) and rewrite.
* `list_tasks` / `list_completed_tasks` open read-only and never write.

The JSON serializer below reproduces serde_json's compact output for
`Vec<Task>` (field order `text`, `create_at`, `completed_at`; the last is
skipped when `None`; strings escape `"` `\` and control characters below
0x20, using `\b \t \n \f \r` or lowercase `\u00XX`).  The parser models
serde_json's deserialization of `Vec<Task>` restricted to objects built
from the three known fields (serde would additionally skip unknown fields),
distinguishing end-of-input errors (`PErr.eof`, serde's `is_eof()`) from
all other parse failures (`PErr.other`).  File contents are modelled at
the Unicode-scalar level rather than raw UTF-8 bytes.
-/

namespace RustyJournal

/-- A task record, from `struct Task` in tasks.rs.  `create_at` and
`completed_at` are UTC epoch seconds (chrono `ts_seconds`), modelled as
integers. -/
structure Task where
  text : List Char
  create_at : Int
  completed_at : Option Int
deriving DecidableEq, Repr

/-- Errors an operation can report: opening a missing file without
`create` (`notFound`), a non-EOF JSON decode failure (`parseError`), and
the explicit `InvalidInput` error for a bad position. -/
inductive Err where
  | notFound
  | parseError
  | invalidPosition
deriving DecidableEq, Repr

/-- Parse-error kind: `eof` corresponds to serde_json errors with
`is_eof() = true` (unexpected end of input), `other` to every other
decode failure. -/
inductive PErr where
  | eof
  | other
deriving DecidableEq, Repr

/-! ## Decimal rendering of integers (serde_json number output) -/

/-- Decimal digits, least significant first, with a fuel bound so that
the recursion is structural and kernel-reducible. -/
def digitsAux : Nat → Nat → List Nat
  | 0, _ => []
  | fuel + 1, n => if n < 10 then [n] else n % 10 :: digitsAux fuel (n / 10)

/-- Decimal digits of `n`, least significant first. -/
def natDigitsRev (n : Nat) : List Nat :=
  digitsAux (n + 1) n

/-- Decimal representation of a natural number, most significant digit
first. -/
def natRepr (n : Nat) : List Char :=
  (natDigitsRev n).reverse.map Nat.digitChar

/-- Decimal representation of an integer, as serde_json writes an `i64`. -/
def intRepr (i : Int) : List Char :=
  if i < 0 then '-' :: natRepr i.natAbs else natRepr i.natAbs

/-! ## String escaping (serde_json string output) -/

/-- Escape of a single character in a JSON string, following serde_json:
`"` and `\` get a backslash escape, control characters below 0x20 use the
short escapes `\b \t \n \f \r` when available and lowercase `\u00XX`
otherwise, and every other character is emitted as itself. -/
def escapeChar (c : Char) : List Char :=
  if c = '"' then ['\\', '"']
  else if c = '\\' then ['\\', '\\']
  else if c.toNat < 0x20 then
    if c.toNat = 8 then ['\\', 'b']
    else if c.toNat = 9 then ['\\', 't']
    else if c.toNat = 10 then ['\\', 'n']
    else if c.toNat = 12 then ['\\', 'f']
    else if c.toNat = 13 then ['\\', 'r']
    else ['\\', 'u', '0', '0', Nat.digitChar (c.toNat / 16), Nat.digitChar (c.toNat % 16)]
  else [c]

/-- Escaped body of a JSON string. -/
def escapeString (s : List Char) : List Char :=
  s.flatMap escapeChar

/-! ## Serialization of tasks (serde_json compact output) -/

/-- Serialization of one task object: serde emits fields in declaration
order (`text`, `create_at`, then `completed_at`), and skips
`completed_at` entirely when it is `None`
(`skip_serializing_if = "Option::is_none"`). -/
def serializeTask (t : Task) : List Char :=
  '\x7b' :: '"' :: 't' :: 'e' :: 'x' :: 't' :: '"' :: ':' :: '"' :: escapeString t.text
    ++ '"' :: ',' :: '"' :: 'c' :: 'r' :: 'e' :: 'a' :: 't' :: 'e' :: '_' :: 'a' :: 't' :: '"' :: ':' :: intRepr t.create_at
    ++ (match t.completed_at with
        | none => []
        | some c =>
          ',' :: '"' :: 'c' :: 'o' :: 'm' :: 'p' :: 'l' :: 'e' :: 't' :: 'e' :: 'd' :: '_' :: 'a' :: 't' :: '"' :: ':' :: intRepr c)
    ++ ['\x7d']

/-- Comma-separated serialization of every task after the first. -/
def tasksTail (ts : List Task) : List Char :=
  ts.flatMap (fun u => ',' :: serializeTask u)

/-- Serialization of a whole task list as a JSON array, serde_json
compact form. -/
def serializeTasks : List Task → List Char
  | [] => ['[', ']']
  | t :: ts => '[' :: serializeTask t ++ tasksTail ts ++ [']']

/-! ## JSON parsing (model of serde_json deserialization of `Vec<Task>`) -/

/-- JSON insignificant whitespace, as accepted by serde_json. -/
def isWs (c : Char) : Bool :=
  c = ' ' || c = '\t' || c = '\n' || c = '\r'

/-- Skip leading whitespace. -/
def skipWs : List Char → List Char
  | [] => []
  | c :: rest => if isWs c then skipWs rest else c :: rest

/-- Value of a hexadecimal digit. -/
def hexVal (c : Char) : Option Nat :=
  if '0' ≤ c ∧ c ≤ '9' then some (c.toNat - 48)
  else if 'a' ≤ c ∧ c ≤ 'f' then some (c.toNat - 87)
  else if 'A' ≤ c ∧ c ≤ 'F' then some (c.toNat - 55)
  else none

/-- Single-character JSON escapes. -/
def simpleEscape (c : Char) : Option Char :=
  if c = '"' then some '"'
  else if c = '\\' then some '\\'
  else if c = '/' then some '/'
  else if c = 'b' then some '\x08'
  else if c = 'f' then some '\x0c'
  else if c = 'n' then some '\n'
  else if c = 'r' then some '\r'
  else if c = 't' then some '\t'
  else none

/-- Parse the body of a JSON string after the opening quote, up to and
including the closing quote.  Running out of input is an `eof` error; a
raw control character, an unknown escape, invalid hex after `\u`, or a
surrogate code unit is an `other` error (this model rejects lone and
paired surrogate escapes alike; no claim involves them). -/
def parseStringBody : List Char → Except PErr (List Char × List Char)
  | [] => .error .eof
  | c :: rest =>
    if c = '"' then .ok ([], rest)
    else if c = '\\' then
      match rest with
      | [] => .error .eof
      | e :: rest2 =>
        if e = 'u' then
          match rest2 with
          | h1 :: h2 :: h3 :: h4 :: rest3 =>
            match hexVal h1, hexVal h2, hexVal h3, hexVal h4 with
            | some a, some b, some c2, some d =>
              let n := ((a * 16 + b) * 16 + c2) * 16 + d
              if n < 0xD800 ∨ 0xDFFF < n then
                match parseStringBody rest3 with
                | .ok (s, r) => .ok (Char.ofNat n :: s, r)
                | .error err => .error err
              else .error .other
            | _, _, _, _ => .error .other
          | _ => .error .eof
        else
          match simpleEscape e with
          | some ec =>
            match parseStringBody rest2 with
            | .ok (s, r) => .ok (ec :: s, r)
            | .error err => .error err
          | none => .error .other
    else if c.toNat < 0x20 then .error .other
    else
      match parseStringBody rest with
      | .ok (s, r) => .ok (c :: s, r)
      | .error err => .error err

/-- Consume a run of decimal digits, accumulating their value. -/
def parseDigits : List Char → Nat → Nat × List Char
  | [], acc => (acc, [])
  | c :: rest, acc =>
    if c.isDigit then parseDigits rest (acc * 10 + (c.toNat - 48))
    else (acc, c :: rest)

/-- After a complete integer literal the next character must not extend
it: another digit after a leading `0` is serde's "invalid number", and a
`.` or exponent would make the value a float, which the `i64` timestamp
deserializer rejects; both are non-EOF errors. -/
def numStop : List Char → Bool
  | [] => true
  | c :: _ => !(c.isDigit || c = '.' || c = 'e' || c = 'E')

/-- Parse an unsigned JSON integer usable as an `i64`. -/
def parseNatTok (cs : List Char) : Except PErr (Nat × List Char) :=
  match cs with
  | [] => .error .eof
  | c :: rest =>
    if c.isDigit then
      if c = '0' then
        if numStop rest then .ok (0, rest) else .error .other
      else
        let pr := parseDigits rest (c.toNat - 48)
        if numStop pr.2 then .ok (pr.1, pr.2) else .error .other
    else .error .other

/-- Parse a JSON integer with optional sign. -/
def parseInt (cs : List Char) : Except PErr (Int × List Char) :=
  match cs with
  | [] => .error .eof
  | c :: rest =>
    if c = '-' then
      match parseNatTok rest with
      | .ok (n, r) => .ok (-(n : Int), r)
      | .error e => .error e
    else
      match parseNatTok (c :: rest) with
      | .ok (n, r) => .ok ((n : Int), r)
      | .error e => .error e

/-- Fields of a task object collected so far while parsing. -/
structure PartialTask where
  text : Option (List Char) := none
  create_at : Option Int := none
  completed_at : Option (Option Int) := none
deriving Repr

/-- Finish a task object: `text` and `create_at` are required (serde's
"missing field" error otherwise); a missing or `null` `completed_at`
defaults to `None` (the field has `default` and its deserializer maps
`null` to `None`). -/
def finalizeTask (p : PartialTask) : Except PErr Task :=
  match p.text, p.create_at with
  | some tx, some ca => .ok ⟨tx, ca, p.completed_at.getD none⟩
  | _, _ => .error .other

/-- Parse the value of one known field and record it; a duplicate field
or an unknown key is an `other` error (serde reports duplicates; for
unknown keys serde would skip the value, a case outside this model and
outside the file format). -/
def parseFieldValue (p : PartialTask) (key : List Char) (cs : List Char) :
    Except PErr (PartialTask × List Char) :=
  if key = ['t', 'e', 'x', 't'] then
    match p.text with
    | some _ => .error .other
    | none =>
      match cs with
      | [] => .error .eof
      | c :: rest =>
        if c = '"' then
          match parseStringBody rest with
          | .ok (s, r) => .ok ({ p with text := some s }, r)
          | .error e => .error e
        else .error .other
  else if key = ['c', 'r', 'e', 'a', 't', 'e', '_', 'a', 't'] then
    match p.create_at with
    | some _ => .error .other
    | none =>
      match parseInt cs with
      | .ok (n, r) => .ok ({ p with create_at := some n }, r)
      | .error e => .error e
  else if key = ['c', 'o', 'm', 'p', 'l', 'e', 't', 'e', 'd', '_', 'a', 't'] then
    match p.completed_at with
    | some _ => .error .other
    | none =>
      match cs with
      | [] => .error .eof
      | c :: rest =>
        if c = 'n' then
          match rest with
          | 'u' :: 'l' :: 'l' :: r => .ok ({ p with completed_at := some none }, r)
          | _ => .error .other
        else
          match parseInt (c :: rest) with
          | .ok (n, r) => .ok ({ p with completed_at := some (some n) }, r)
          | .error e => .error e
  else .error .other

/-- Parse the members of a task object after the opening brace (first
member onward).  The fuel only bounds the number of members and is chosen
larger than the input length. -/
def parseMembers : Nat → PartialTask → List Char → Except PErr (Task × List Char)
  | 0, _, _ => .error .other
  | fuel + 1, p, cs =>
    match cs with
    | [] => .error .eof
    | c :: rest =>
      if c = '"' then
        match parseStringBody rest with
        | .error e => .error e
        | .ok (key, r1) =>
          match skipWs r1 with
          | [] => .error .eof
          | c2 :: r2 =>
            if c2 = ':' then
              match parseFieldValue p key (skipWs r2) with
              | .error e => .error e
              | .ok (p2, r3) =>
                match skipWs r3 with
                | [] => .error .eof
                | c3 :: r4 =>
                  if c3 = ',' then parseMembers fuel p2 (skipWs r4)
                  else if c3 = '\x7d' then
                    match finalizeTask p2 with
                    | .ok t => .ok (t, r4)
                    | .error e => .error e
                  else .error .other
            else .error .other
      else .error .other

/-- Parse one task object. -/
def parseTask (fuel : Nat) (cs : List Char) : Except PErr (Task × List Char) :=
  match cs with
  | [] => .error .eof
  | c :: rest =>
    if c = '\x7b' then
      match skipWs rest with
      | [] => .error .eof
      | c2 :: rest2 =>
        if c2 = '\x7d' then
          match finalizeTask {} with
          | .ok t => .ok (t, rest2)
          | .error e => .error e
        else parseMembers fuel {} (c2 :: rest2)
    else .error .other

/-- Parse the elements of a non-empty array, positioned at the start of
an element. -/
def parseElems : Nat → List Task → List Char → Except PErr (List Task × List Char)
  | 0, _, _ => .error .other
  | fuel + 1, acc, cs =>
    match parseTask (fuel + 1) cs with
    | .error e => .error e
    | .ok (t, r1) =>
      match skipWs r1 with
      | [] => .error .eof
      | c :: r2 =>
        if c = ',' then parseElems fuel (acc ++ [t]) (skipWs r2)
        else if c = ']' then .ok (acc ++ [t], r2)
        else .error .other

/-- Parse a whole file as a JSON array of tasks, requiring nothing but
whitespace after the closing bracket (serde_json's `from_reader` rejects
trailing content with a non-EOF error).  An empty or all-whitespace file
is an `eof` error, as is input that ends inside the array. -/
def parseTasks (cs : List Char) : Except PErr (List Task) :=
  match skipWs cs with
  | [] => .error .eof
  | c :: rest =>
    if c = '[' then
      match skipWs rest with
      | [] => .error .eof
      | c2 :: rest2 =>
        if c2 = ']' then
          if skipWs rest2 = [] then .ok [] else .error .other
        else
          match parseElems (cs.length + 1) [] (c2 :: rest2) with
          | .error e => .error e
          | .ok (ts, r2) => if skipWs r2 = [] then .ok ts else .error .other
    else .error .other

/-- Model of `collect_task` in tasks.rs: parse the whole file; a parse
error with `is_eof()` yields the empty list, any other parse error
propagates. -/
def collect_task (content : List Char) : Except Err (List Task) :=
  match parseTasks content with
  | .ok ts => .ok ts
  | .error .eof => .ok []
  | .error .other => .error .parseError

/-! ## Store operations

Each operation maps the file-system state (`none` = the journal file does
not exist) to the state after the operation together with the error it
reports, following the order of effects in the source. -/

/-- Writing from offset 0 without truncating: bytes of the old content
beyond the new content's length survive.  `add_task` writes this way
(there is no `set_len(0)` in it); `complete_task` and `edit_task` call
`set_len(0)` first, so they replace the content outright. -/
def overwriteFrom (old new : List Char) : List Char :=
  new ++ old.drop new.length

/-- Model of `add_task`: open read/write with `create(true)` (a missing
file is created empty), load, append, and write the serialized list from
offset 0 without truncation. -/
def add_task (fs : Option (List Char)) (task : Task) : Option (List Char) × Option Err :=
  let content := fs.getD []
  match collect_task content with
  | .error e => (some content, some e)
  | .ok ts => (some (overwriteFrom content (serializeTasks (ts ++ [task]))), none)

/-- Number of tasks with `completed_at = none`, the length of the
`incomplete_tasks` vector in the source. -/
def countIncomplete (ts : List Task) : Nat :=
  (ts.filter (fun t => t.completed_at = none)).length

/-- Apply `f` to the `k`-th (1-based) task with `completed_at = none`,
leaving every other task untouched.  This is the effect of mutating
`incomplete_tasks[k - 1]` through its `&mut` borrow of the full vector. -/
def mapNthIncomplete : List Task → Nat → (Task → Task) → List Task
  | [], _, _ => []
  | t :: ts, k, f =>
    if t.completed_at = none then
      if k = 1 then f t :: ts
      else t :: mapNthIncomplete ts (k - 1) f
    else t :: mapNthIncomplete ts k f

/-- Model of `complete_task`: open read/write without `create`, load,
check the position against the incomplete sub-sequence (rejecting 0 and
overflow before any write), set `completed_at = now` on the selected
entry, then truncate and rewrite the full sequence. -/
def complete_task (fs : Option (List Char)) (pos : Nat) (now : Int) :
    Option (List Char) × Option Err :=
  match fs with
  | none => (none, some .notFound)
  | some content =>
    match collect_task content with
    | .error e => (some content, some e)
    | .ok ts =>
      if pos = 0 ∨ pos > countIncomplete ts then (some content, some .invalidPosition)
      else
        (some (serializeTasks
          (mapNthIncomplete ts pos (fun t => { t with completed_at := some now }))), none)

/-- Model of `edit_task`: same shape as `complete_task`, but replacing
the `text` field of the selected incomplete task. -/
def edit_task (fs : Option (List Char)) (pos : Nat) (text : List Char) :
    Option (List Char) × Option Err :=
  match fs with
  | none => (none, some .notFound)
  | some content =>
    match collect_task content with
    | .error e => (some content, some e)
    | .ok ts =>
      if pos = 0 ∨ pos > countIncomplete ts then (some content, some .invalidPosition)
      else
        (some (serializeTasks
          (mapNthIncomplete ts pos (fun t => { t with text := text }))), none)

/-! ## Display formatting

The `Display` impl pads the text to 80 display-width columns (via the
unicode-width crate), then prints the creation time and, when present,
the completion time, both rendered in the local timezone with the chrono
format `%F %H:%M:%S`.  The local timezone is modelled as a fixed offset
`tz` in seconds, and the display width by `charWidth` below, which is
exact on ASCII and approximates the unicode-width tables elsewhere. -/

/-- Display width of one character: control characters count 0, ASCII
counts 1, and the principal East-Asian-wide blocks count 2. -/
def charWidth (c : Char) : Nat :=
  let n := c.toNat
  if n < 0x20 then 0
  else if n < 0x7F then 1
  else if n < 0xA0 then 0
  else if (0x1100 ≤ n ∧ n ≤ 0x115F) ∨ (0x2E80 ≤ n ∧ n ≤ 0xA4CF) ∨ (0xAC00 ≤ n ∧ n ≤ 0xD7A3)
      ∨ (0xF900 ≤ n ∧ n ≤ 0xFAFF) ∨ (0xFE30 ≤ n ∧ n ≤ 0xFE4F) ∨ (0xFF00 ≤ n ∧ n ≤ 0xFF60)
      ∨ (0xFFE0 ≤ n ∧ n ≤ 0xFFE6) ∨ (0x20000 ≤ n ∧ n ≤ 0x3FFFD) then 2
  else 1

/-- Display width of a string (`UnicodeWidthStr::width`). -/
def strWidth (s : List Char) : Nat :=
  (s.map charWidth).sum

/-- Two-digit zero-padded decimal. -/
def pad2 (n : Nat) : List Char :=
  if n < 10 then '0' :: natRepr n else natRepr n

/-- Year rendered as chrono's `%Y`: zero-padded to four digits, with a
leading minus for negative years. -/
def pad4Year (y : Int) : List Char :=
  let ds := natRepr y.natAbs
  let padded := List.replicate (4 - ds.length) '0' ++ ds
  if y < 0 then '-' :: padded else padded

/-- Proleptic-Gregorian date from a count of days since 1970-01-01
(Howard Hinnant's `civil_from_days`, the algorithm underlying chrono's
calendar conversion). -/
def civilFromDays (z0 : Int) : Int × Nat × Nat :=
  let z := z0 + 719468
  let era : Int := z.fdiv 146097
  let doe : Nat := (z - era * 146097).toNat
  let yoe : Nat := (doe - doe / 1460 + doe / 36524 - doe / 146096) / 365
  let doy : Nat := doe - (365 * yoe + yoe / 4 - yoe / 100)
  let mp : Nat := (5 * doy + 2) / 153
  let d : Nat := doy - (153 * mp + 2) / 5 + 1
  let m : Nat := if mp < 10 then mp + 3 else mp - 9
  let y : Int := (yoe : Int) + era * 400
  (if m ≤ 2 then y + 1 else y, m, d)

/-- Epoch seconds rendered in the local timezone (offset `tz` seconds)
with chrono format `%F %H:%M:%S`. -/
def fmtLocal (tz : Int) (ts : Int) : List Char :=
  let t := ts + tz
  let days := t.fdiv 86400
  let sod := (t.emod 86400).toNat
  let ymd := civilFromDays days
  pad4Year ymd.1 ++ '-' :: pad2 ymd.2.1 ++ '-' :: pad2 ymd.2.2
    ++ ' ' :: pad2 (sod / 3600) ++ ':' :: pad2 (sod % 3600 / 60) ++ ':' :: pad2 (sod % 60)

/-- Model of the `Display` impl for `Task`: the text padded on the right
to 80 display columns, then `" [<created>]"`, and for a completed task
additionally `" (completed at <completed>)"`. -/
def displayTask (tz : Int) (t : Task) : List Char :=
  let created := fmtLocal tz t.create_at
  let w := strWidth t.text
  let padding := if w < 80 then 80 - w else 0
  let padded := t.text ++ List.replicate padding ' '
  match t.completed_at with
  | some c =>
    padded ++ ' ' :: '[' :: created ++ ']' :: ' ' :: '(' :: 'c' :: 'o' :: 'm' :: 'p' :: 'l' :: 'e' :: 't' :: 'e' :: 'd' :: ' ' :: 'a' :: 't' :: ' ' :: fmtLocal tz c ++ [')']
  | none => padded ++ ' ' :: '[' :: created ++ [']']

/-- One printed line per task, with a counter starting at `order`,
translating the `order` loop in `list_tasks` / `list_completed_tasks`. -/
def renderLines (tz : Int) : Nat → List Task → List (List Char)
  | _, [] => []
  | order, t :: rest =>
    (natRepr order ++ '.' :: ' ' :: displayTask tz t) :: renderLines tz (order + 1) rest

/-- Model of `list_tasks`: open read-only (no `create`), load, print the
"Task list is empty!" notice when the RAW list is empty, otherwise one
numbered line per task with `completed_at = none`. -/
def list_tasks (tz : Int) (fs : Option (List Char)) :
    Option (List Char) × Except Err (List (List Char)) :=
  match fs with
  | none => (none, .error .notFound)
  | some content =>
    match collect_task content with
    | .error e => (some content, .error e)
    | .ok ts =>
      if ts.isEmpty then (some content, .ok ["Task list is empty!".toList])
      else (some content, .ok (renderLines tz 1 (ts.filter (fun t => t.completed_at = none))))

/-- Model of `list_completed_tasks`: symmetric to `list_tasks` over
`completed_at != none`. -/
def list_completed_tasks (tz : Int) (fs : Option (List Char)) :
    Option (List Char) × Except Err (List (List Char)) :=
  match fs with
  | none => (none, .error .notFound)
  | some content =>
    match collect_task content with
    | .error e => (some content, .error e)
    | .ok ts =>
      if ts.isEmpty then (some content, .ok ["Task list is empty!".toList])
      else (some content, .ok (renderLines tz 1 (ts.filter (fun t => t.completed_at ≠ none))))

/-! ## Lemmas: decimal digits round-trip -/

lemma digitChar_facts {d : Nat} (h : d < 10) :
    (Nat.digitChar d).isDigit = true ∧ (Nat.digitChar d).toNat - 48 = d ∧
    isWs (Nat.digitChar d) = false ∧ (Nat.digitChar d = '0' → d = 0) ∧
    Nat.digitChar d ≠ '-' ∧ Nat.digitChar d ≠ 'n' := by
  have hd : d = 0 ∨ d = 1 ∨ d = 2 ∨ d = 3 ∨ d = 4 ∨ d = 5 ∨ d = 6 ∨ d = 7 ∨ d = 8 ∨ d = 9 := by
    omega
  rcases hd with rfl | rfl | rfl | rfl | rfl | rfl | rfl | rfl | rfl | rfl <;> decide

lemma digitsAux_extra : ∀ (n fuel₁ fuel₂ : Nat), n < fuel₁ → n < fuel₂ →
    digitsAux fuel₁ n = digitsAux fuel₂ n := by
  intro n
  induction n using Nat.strong_induction_on with
  | _ n ih =>
    intro fuel₁ fuel₂ h₁ h₂
    cases fuel₁ with
    | zero => omega
    | succ f₁ =>
      cases fuel₂ with
      | zero => omega
      | succ f₂ =>
        simp only [digitsAux]
        split
        · rfl
        · rename_i hn
          rw [ih (n / 10) (Nat.div_lt_self (by omega) (by omega)) f₁ f₂ (by omega) (by omega)]

lemma natDigitsRev_eq (n : Nat) :
    natDigitsRev n = if n < 10 then [n] else n % 10 :: natDigitsRev (n / 10) := by
  rw [natDigitsRev, digitsAux]
  split
  · rfl
  · rename_i hn
    rw [natDigitsRev,
      digitsAux_extra (n / 10) n (n / 10 + 1) (Nat.div_lt_self (by omega) (by omega)) (by omega)]

lemma natDigitsRev_lt10 : ∀ n, ∀ d ∈ natDigitsRev n, d < 10 := by
  intro n
  induction n using Nat.strong_induction_on with
  | _ n ih =>
    rw [natDigitsRev_eq]
    split
    · intro d hd
      simp only [List.mem_singleton] at hd
      omega
    · intro d hd
      rcases List.mem_cons.mp hd with rfl | hmem
      · exact Nat.mod_lt _ (by omega)
      · exact ih (n / 10) (Nat.div_lt_self (by omega) (by omega)) d hmem

lemma natDigitsRev_reverse_head (n : Nat) (h : 1 ≤ n) :
    ∃ d l, (natDigitsRev n).reverse = d :: l ∧ d ≠ 0 ∧ d < 10 ∧ ∀ x ∈ l, x < 10 := by
  induction n using Nat.strong_induction_on with
  | _ n ih =>
    rw [natDigitsRev_eq]
    split
    · exact ⟨n, [], by simp, by omega, by omega, by simp⟩
    · rename_i hn
      obtain ⟨d, l, hrev, hd0, hd10, hl⟩ :=
        ih (n / 10) (Nat.div_lt_self (by omega) (by omega)) (by omega)
      refine ⟨d, l ++ [n % 10], ?_, hd0, hd10, ?_⟩
      · simp [hrev]
      · intro x hx
        rcases List.mem_append.mp hx with hx | hx
        · exact hl x hx
        · simp only [List.mem_singleton] at hx
          subst hx
          exact Nat.mod_lt _ (by omega)

lemma foldl_natDigitsRev (n : Nat) : ∀ acc : Nat,
    List.foldl (fun a d => a * 10 + d) acc (natDigitsRev n).reverse =
      acc * 10 ^ (natDigitsRev n).length + n := by
  induction n using Nat.strong_induction_on with
  | _ n ih =>
    intro acc
    rw [natDigitsRev_eq]
    split
    · simp [pow_one]
    · rename_i hn
      have ih' := ih (n / 10) (Nat.div_lt_self (by omega) (by omega))
      simp only [List.reverse_cons, List.foldl_append, List.foldl_cons, List.foldl_nil,
        List.length_cons]
      rw [ih' acc, pow_succ]
      have hdm : 10 * (n / 10) + n % 10 = n := Nat.div_add_mod n 10
      have hring : (acc * 10 ^ (natDigitsRev (n / 10)).length + n / 10) * 10 + n % 10 =
          acc * (10 ^ (natDigitsRev (n / 10)).length * 10) + (10 * (n / 10) + n % 10) := by
        ring
      rw [hring, hdm]

lemma skipWs_cons_not_ws {c : Char} (l : List Char) (h : isWs c = false) :
    skipWs (c :: l) = c :: l := by
  simp [skipWs, h]

lemma parseDigits_stop {rest : List Char} (h : numStop rest = true) (acc : Nat) :
    parseDigits rest acc = (acc, rest) := by
  cases rest with
  | nil => rfl
  | cons c r =>
    simp only [numStop, Bool.not_eq_eq_eq_not, Bool.not_true, Bool.or_eq_false_iff] at h
    simp [parseDigits, h.1]

lemma parseDigits_digits : ∀ (l : List Nat), (∀ x ∈ l, x < 10) → ∀ (rest : List Char) (acc : Nat),
    parseDigits (l.map Nat.digitChar ++ rest) acc =
      parseDigits rest (List.foldl (fun a d => a * 10 + d) acc l) := by
  intro l
  induction l with
  | nil => intro _ rest acc; simp
  | cons d l ih =>
    intro hl rest acc
    have hd := digitChar_facts (hl d (by simp))
    simp only [List.map_cons, List.cons_append, parseDigits, hd.1, if_true, List.foldl_cons,
      List.append_eq]
    rw [hd.2.1]
    exact ih (fun x hx => hl x (List.mem_cons_of_mem _ hx)) rest (acc * 10 + d)

lemma natRepr_zero : natRepr 0 = ['0'] := by
  rw [natRepr, natDigitsRev_eq]
  simp
  rfl

lemma natRepr_pos_decomp (n : Nat) (h : 1 ≤ n) :
    ∃ d l, natRepr n = Nat.digitChar d :: l.map Nat.digitChar ∧ d ≠ 0 ∧ d < 10 ∧
      (∀ x ∈ l, x < 10) ∧ (natDigitsRev n).reverse = d :: l := by
  obtain ⟨d, l, hrev, hd0, hd10, hl⟩ := natDigitsRev_reverse_head n h
  exact ⟨d, l, by simp [natRepr, hrev], hd0, hd10, hl, hrev⟩

lemma parseNatTok_natRepr (n : Nat) {rest : List Char} (h : numStop rest = true) :
    parseNatTok (natRepr n ++ rest) = .ok (n, rest) := by
  rcases Nat.eq_zero_or_pos n with rfl | hpos
  · simp [natRepr_zero, parseNatTok, h]
  · obtain ⟨d, l, hdec, hd0, hd10, hl, hrev⟩ := natRepr_pos_decomp n hpos
    have hd := digitChar_facts hd10
    rw [hdec]
    simp only [List.cons_append, parseNatTok, hd.1, if_true]
    have hne : ¬ Nat.digitChar d = '0' := fun hc => hd0 (hd.2.2.2.1 hc)
    rw [if_neg hne]
    rw [hd.2.1, parseDigits_digits l hl rest d, parseDigits_stop h]
    have hval : List.foldl (fun a x => a * 10 + x) d l = n := by
      have h0 := foldl_natDigitsRev n 0
      rw [hrev] at h0
      simpa using h0
    simp [hval, h]

lemma intRepr_head (i : Int) :
    ∃ c cs, intRepr i = c :: cs ∧ isWs c = false ∧ c ≠ 'n' := by
  rcases lt_or_le i 0 with hneg | hpos
  · exact ⟨'-', natRepr i.natAbs, by simp [intRepr, hneg], by decide, by decide⟩
  · have : ¬ i < 0 := not_lt.mpr hpos
    rcases Nat.eq_zero_or_pos i.natAbs with hz | hp
    · refine ⟨'0', [], ?_, by decide, by decide⟩
      simp [intRepr, this, hz, natRepr_zero]
    · obtain ⟨d, l, hdec, _, hd10, _, _⟩ := natRepr_pos_decomp i.natAbs hp
      have hd := digitChar_facts hd10
      exact ⟨Nat.digitChar d, l.map Nat.digitChar, by simp [intRepr, this, hdec],
        hd.2.2.1, hd.2.2.2.2.2⟩

lemma skipWs_intRepr (i : Int) (r : List Char) :
    skipWs (intRepr i ++ r) = intRepr i ++ r := by
  obtain ⟨c, cs, hdec, hws, _⟩ := intRepr_head i
  rw [hdec, List.cons_append, skipWs_cons_not_ws _ hws]

lemma parseInt_intRepr (i : Int) {rest : List Char} (h : numStop rest = true) :
    parseInt (intRepr i ++ rest) = .ok (i, rest) := by
  rcases lt_or_le i 0 with hneg | hpos
  · have habs : -((i.natAbs : Nat) : Int) = i := by omega
    simp only [intRepr, hneg, if_true, List.cons_append, parseInt, if_pos rfl]
    rw [parseNatTok_natRepr i.natAbs h]
    simp only [habs]
  · have hlt : ¬ i < 0 := not_lt.mpr hpos
    have habs : ((i.natAbs : Nat) : Int) = i := Int.natAbs_of_nonneg hpos ▸ rfl
    obtain ⟨c, cs, hdec, _, _⟩ := intRepr_head i
    rw [hdec, List.cons_append]
    simp only [parseInt]
    have hc : c ≠ '-' := by
      simp only [intRepr, hlt, if_false] at hdec
      rcases Nat.eq_zero_or_pos i.natAbs with hz | hp
      · rw [hz, natRepr_zero] at hdec
        intro hcc
        rw [hcc] at hdec
        exact absurd (List.cons.inj hdec).1 (by decide)
      · obtain ⟨d, l, hdec2, _, hd10, _, _⟩ := natRepr_pos_decomp i.natAbs hp
        rw [hdec2] at hdec
        intro hcc
        rw [hcc] at hdec
        exact (digitChar_facts hd10).2.2.2.2.1 (List.cons.inj hdec).1
    rw [if_neg hc, ← List.cons_append, ← hdec]
    have hir : intRepr i = natRepr i.natAbs := by simp [intRepr, hlt]
    have habs : ((i.natAbs : Nat) : Int) = i := by omega
    rw [hir, parseNatTok_natRepr i.natAbs h]
    simp only [habs]

/-! ## Lemmas: string escaping round-trip -/

lemma hexVal_digitChar {v : Nat} (h : v < 16) : hexVal (Nat.digitChar v) = some v := by
  have hv : v = 0 ∨ v = 1 ∨ v = 2 ∨ v = 3 ∨ v = 4 ∨ v = 5 ∨ v = 6 ∨ v = 7 ∨ v = 8 ∨ v = 9 ∨
      v = 10 ∨ v = 11 ∨ v = 12 ∨ v = 13 ∨ v = 14 ∨ v = 15 := by omega
  rcases hv with rfl | rfl | rfl | rfl | rfl | rfl | rfl | rfl | rfl | rfl | rfl | rfl | rfl |
    rfl | rfl | rfl <;> decide

lemma parseStringBody_cons (c : Char) (rest : List Char) :
    parseStringBody (c :: rest) =
      (if c = '"' then .ok ([], rest)
       else if c = '\\' then
         match rest with
         | [] => .error .eof
         | e :: rest2 =>
           if e = 'u' then
             match rest2 with
             | h1 :: h2 :: h3 :: h4 :: rest3 =>
               match hexVal h1, hexVal h2, hexVal h3, hexVal h4 with
               | some a, some b, some c2, some d =>
                 let n := ((a * 16 + b) * 16 + c2) * 16 + d
                 if n < 0xD800 ∨ 0xDFFF < n then
                   match parseStringBody rest3 with
                   | .ok (s, r) => .ok (Char.ofNat n :: s, r)
                   | .error err => .error err
                 else .error .other
               | _, _, _, _ => .error .other
             | _ => .error .eof
           else
             match simpleEscape e with
             | some ec =>
               match parseStringBody rest2 with
               | .ok (s, r) => .ok (ec :: s, r)
               | .error err => .error err
             | none => .error .other
       else if c.toNat < 0x20 then .error .other
       else
         match parseStringBody rest with
         | .ok (s, r) => .ok (c :: s, r)
         | .error err => .error err) := by
  rw [parseStringBody.eq_def]

lemma parseStringBody_escape : ∀ (s rest : List Char),
    parseStringBody (escapeString s ++ '"' :: rest) = .ok (s, rest) := by
  intro s
  induction s with
  | nil =>
    intro rest
    simp [escapeString, parseStringBody_cons]
  | cons c s ih =>
    intro rest
    have hstep : escapeString (c :: s) = escapeChar c ++ escapeString s := by
      simp [escapeString]
    rw [hstep, List.append_assoc]
    by_cases hq : c = '"'
    · subst hq
      simp [escapeChar, parseStringBody_cons, simpleEscape, ih]
    · by_cases hb : c = '\\'
      · subst hb
        simp [escapeChar, parseStringBody_cons, simpleEscape, ih]
      · by_cases hc : c.toNat < 0x20
        · have hesc : escapeChar c =
              (if c.toNat = 8 then ['\\', 'b']
               else if c.toNat = 9 then ['\\', 't']
               else if c.toNat = 10 then ['\\', 'n']
               else if c.toNat = 12 then ['\\', 'f']
               else if c.toNat = 13 then ['\\', 'r']
               else ['\\', 'u', '0', '0', Nat.digitChar (c.toNat / 16),
                 Nat.digitChar (c.toNat % 16)]) := by
            simp [escapeChar, hq, hb, hc]
          by_cases h8 : c.toNat = 8
          · have hcc : '\x08' = c := by rw [← Char.ofNat_toNat c, h8]
            subst hcc
            rw [hesc, if_pos h8]
            simp [parseStringBody_cons, simpleEscape, ih]
          · by_cases h9 : c.toNat = 9
            · have hcc : '\t' = c := by rw [← Char.ofNat_toNat c, h9]
              subst hcc
              rw [hesc, if_neg h8, if_pos h9]
              simp [parseStringBody_cons, simpleEscape, ih]
            · by_cases h10 : c.toNat = 10
              · have hcc : '\n' = c := by rw [← Char.ofNat_toNat c, h10]
                subst hcc
                rw [hesc, if_neg h8, if_neg h9, if_pos h10]
                simp [parseStringBody_cons, simpleEscape, ih]
              · by_cases h12 : c.toNat = 12
                · have hcc : '\x0c' = c := by rw [← Char.ofNat_toNat c, h12]
                  subst hcc
                  rw [hesc, if_neg h8, if_neg h9, if_neg h10, if_pos h12]
                  simp [parseStringBody_cons, simpleEscape, ih]
                · by_cases h13 : c.toNat = 13
                  · have hcc : '\x0d' = c := by rw [← Char.ofNat_toNat c, h13]
                    subst hcc
                    rw [hesc, if_neg h8, if_neg h9, if_neg h10, if_neg h12, if_pos h13]
                    simp [parseStringBody_cons, simpleEscape, ih]
                  · rw [hesc, if_neg h8, if_neg h9, if_neg h10, if_neg h12, if_neg h13]
                    simp only [List.cons_append, List.nil_append]
                    have e1 : hexVal (Nat.digitChar (c.toNat / 16)) = some (c.toNat / 16) :=
                      hexVal_digitChar (by omega)
                    have e2 : hexVal (Nat.digitChar (c.toNat % 16)) = some (c.toNat % 16) :=
                      hexVal_digitChar (by omega)
                    have hrange : c.toNat < 55296 ∨ 57343 < c.toNat := Or.inl (by omega)
                    have e0 : hexVal '0' = some 0 := rfl
                    have hval : c.toNat / 16 * 16 + c.toNat % 16 = c.toNat := by omega
                    simp [parseStringBody_cons, e0, e1, e2, ih, hval, hrange, Char.ofNat_toNat]
        · have hesc : escapeChar c = [c] := by
            simp [escapeChar, hq, hb, hc]
          rw [hesc]
          simp [parseStringBody_cons, hq, hb, hc, ih]

/-! ## Lemmas: task and array round-trip -/

lemma parseFieldValue_text (p : PartialTask) (hp : p.text = none) (s r : List Char) :
    parseFieldValue p ['t', 'e', 'x', 't'] ('"' :: (escapeString s ++ '"' :: r)) =
      .ok ({ p with text := some s }, r) := by
  simp [parseFieldValue, hp, parseStringBody_escape]

lemma parseFieldValue_create (p : PartialTask) (hp : p.create_at = none) (i : Int)
    (r : List Char) (hr : numStop r = true) :
    parseFieldValue p ['c', 'r', 'e', 'a', 't', 'e', '_', 'a', 't'] (intRepr i ++ r) =
      .ok ({ p with create_at := some i }, r) := by
  simp [parseFieldValue, hp, parseInt_intRepr i hr]

lemma parseFieldValue_completed (p : PartialTask) (hp : p.completed_at = none) (i : Int)
    (r : List Char) (hr : numStop r = true) :
    parseFieldValue p ['c', 'o', 'm', 'p', 'l', 'e', 't', 'e', 'd', '_', 'a', 't']
      (intRepr i ++ r) = .ok ({ p with completed_at := some (some i) }, r) := by
  obtain ⟨c, cs, hdec, hws, hn⟩ := intRepr_head i
  rw [hdec, List.cons_append]
  simp only [parseFieldValue, hp, if_true]
  rw [if_neg hn, ← List.cons_append, ← hdec, parseInt_intRepr i hr]
  simp

lemma parseTask_serializeTask (f : Nat) (t : Task) (rest : List Char) :
    parseTask (f + 3) (serializeTask t ++ rest) = .ok (t, rest) := by
  obtain ⟨tx, ca, co⟩ := t
  have hkey1 : ∀ l : List Char, parseStringBody ('t' :: 'e' :: 'x' :: 't' :: '"' :: l) =
      .ok (['t', 'e', 'x', 't'], l) := by
    intro l; simp [parseStringBody_cons]
  have hkey2 : ∀ l : List Char,
      parseStringBody ('c' :: 'r' :: 'e' :: 'a' :: 't' :: 'e' :: '_' :: 'a' :: 't' :: '"' :: l) =
      .ok (['c', 'r', 'e', 'a', 't', 'e', '_', 'a', 't'], l) := by
    intro l; simp [parseStringBody_cons]
  have hkey3 : ∀ l : List Char,
      parseStringBody
        ('c' :: 'o' :: 'm' :: 'p' :: 'l' :: 'e' :: 't' :: 'e' :: 'd' :: '_' :: 'a' :: 't' :: '"' :: l) =
      .ok (['c', 'o', 'm', 'p', 'l', 'e', 't', 'e', 'd', '_', 'a', 't'], l) := by
    intro l; simp [parseStringBody_cons]
  cases co with
  | none =>
    simp [serializeTask, parseTask, parseMembers, skipWs, isWs, hkey1, hkey2, hkey3,
      parseFieldValue_text, parseFieldValue_create, parseFieldValue_completed, skipWs_intRepr,
      finalizeTask, numStop]
  | some cc =>
    simp [serializeTask, parseTask, parseMembers, skipWs, isWs, hkey1, hkey2, hkey3,
      parseFieldValue_text, parseFieldValue_create, parseFieldValue_completed, skipWs_intRepr,
      finalizeTask, numStop]

lemma serializeTask_head (t : Task) : ∃ body, serializeTask t = '\x7b' :: body :=
  ⟨_, rfl⟩

lemma skipWs_serializeTask (t : Task) (r : List Char) :
    skipWs (serializeTask t ++ r) = serializeTask t ++ r := by
  obtain ⟨body, hbody⟩ := serializeTask_head t
  rw [hbody, List.cons_append]
  exact skipWs_cons_not_ws _ (by decide)

lemma serializeTask_length_pos (t : Task) : 1 ≤ (serializeTask t).length := by
  obtain ⟨body, hbody⟩ := serializeTask_head t
  simp [hbody]

lemma tasksTail_length : ∀ l : List Task, l.length ≤ (tasksTail l).length := by
  intro l
  induction l with
  | nil => simp [tasksTail]
  | cons u l ih =>
    have := serializeTask_length_pos u
    simp only [tasksTail, List.flatMap_cons, List.cons_append, List.length_cons,
      List.length_append] at *
    omega

lemma parseElems_serialize : ∀ (l : List Task) (t : Task) (acc : List Task) (fuel : Nat),
    l.length + 3 ≤ fuel →
    parseElems fuel acc (serializeTask t ++ tasksTail l ++ [']']) = .ok (acc ++ t :: l, []) := by
  intro l
  induction l with
  | nil =>
    intro t acc fuel hf
    obtain ⟨g, rfl⟩ : ∃ g, fuel = g + 3 := ⟨fuel - 3, by omega⟩
    simp [tasksTail, parseElems, parseTask_serializeTask, skipWs, isWs]
  | cons u l ih =>
    intro t acc fuel hf
    obtain ⟨g, rfl⟩ : ∃ g, fuel = (g + 1) + 3 := ⟨fuel - 4, by simp at hf; omega⟩
    have hrec := ih u (acc ++ [t]) (g + 3) (by simp at hf; omega)
    have hstep : tasksTail (u :: l) = ',' :: (serializeTask u ++ tasksTail l) := by
      simp [tasksTail]
    rw [hstep]
    simp only [List.cons_append, List.append_assoc]
    rw [show g + 1 + 3 = (g + 3) + 1 from by omega]
    rw [parseElems.eq_2]
    rw [show (g + 3) + 1 = (g + 1) + 3 from by omega]
    rw [parseTask_serializeTask (g + 1) t]
    simp only []
    rw [skipWs_cons_not_ws _ (by decide)]
    simp only []
    rw [if_true, skipWs_serializeTask, ← List.append_assoc, hrec]
    simp

theorem parseTasks_serializeTasks (ts : List Task) :
    parseTasks (serializeTasks ts) = .ok ts := by
  cases ts with
  | nil => rfl
  | cons t l =>
    obtain ⟨body, hbody⟩ := serializeTask_head t
    have hlen : l.length + 3 ≤ (serializeTasks (t :: l)).length + 1 := by
      have h1 := serializeTask_length_pos t
      have h2 := tasksTail_length l
      simp only [serializeTasks, List.length_cons, List.length_append]
      omega
    have helems := parseElems_serialize l t [] ((serializeTasks (t :: l)).length + 1) hlen
    simp only [serializeTasks] at helems ⊢
    rw [parseTasks]
    rw [hbody] at helems ⊢
    simp only [List.cons_append, List.append_assoc, List.length_cons, List.length_append,
      List.length_nil] at helems ⊢
    simp [skipWs, isWs, helems]

theorem collect_serializeTasks (ts : List Task) :
    collect_task (serializeTasks ts) = .ok ts := by
  simp [collect_task, parseTasks_serializeTasks]

/-! ## Lemmas: the positional mutation over the incomplete sub-sequence -/

lemma countIncomplete_nil : countIncomplete [] = 0 := rfl

lemma countIncomplete_cons (t : Task) (ts : List Task) :
    countIncomplete (t :: ts) =
      (if t.completed_at = none then 1 else 0) + countIncomplete ts := by
  by_cases hc : t.completed_at = none
  · simp [countIncomplete, List.filter_cons, hc]
    omega
  · simp [countIncomplete, List.filter_cons, hc]

lemma mapNthIncomplete_length : ∀ (ts : List Task) (k : Nat) (f : Task → Task),
    (mapNthIncomplete ts k f).length = ts.length := by
  intro ts
  induction ts with
  | nil => intro k f; rfl
  | cons t ts ih =>
    intro k f
    by_cases hc : t.completed_at = none
    · by_cases hk : k = 1 <;> simp [mapNthIncomplete, hc, hk, ih]
    · simp [mapNthIncomplete, hc, ih]

lemma mapNthIncomplete_frame : ∀ (ts : List Task) (k : Nat) (f : Task → Task) (j : Nat),
    (mapNthIncomplete ts k f)[j]? = ts[j]? ∨
      ∃ t0, ts[j]? = some t0 ∧ t0.completed_at = none ∧
        (mapNthIncomplete ts k f)[j]? = some (f t0) := by
  intro ts
  induction ts with
  | nil => intro k f j; left; rfl
  | cons t ts ih =>
    intro k f j
    by_cases hc : t.completed_at = none
    · by_cases hk : k = 1
      · subst hk
        cases j with
        | zero => exact Or.inr ⟨t, by simp [mapNthIncomplete, hc], hc, by simp [mapNthIncomplete, hc]⟩
        | succ j => left; simp [mapNthIncomplete, hc]
      · cases j with
        | zero => left; simp [mapNthIncomplete, hc, hk]
        | succ j =>
          rcases ih (k - 1) f j with h | ⟨t0, h1, h2, h3⟩
          · left; simpa [mapNthIncomplete, hc, hk] using h
          · exact Or.inr ⟨t0, by simpa using h1, h2, by simpa [mapNthIncomplete, hc, hk] using h3⟩
    · cases j with
      | zero => left; simp [mapNthIncomplete, hc]
      | succ j =>
        rcases ih k f j with h | ⟨t0, h1, h2, h3⟩
        · left; simpa [mapNthIncomplete, hc] using h
        · exact Or.inr ⟨t0, by simpa using h1, h2, by simpa [mapNthIncomplete, hc] using h3⟩

lemma mapNthIncomplete_spec (f : Task → Task) : ∀ (ts : List Task) (p : Nat),
    1 ≤ p → p ≤ countIncomplete ts →
    ∃ idx t0,
      idx < ts.length ∧
      ts[idx]? = some t0 ∧
      t0.completed_at = none ∧
      countIncomplete (ts.take idx) = p - 1 ∧
      (mapNthIncomplete ts p f)[idx]? = some (f t0) ∧
      (∀ j, j ≠ idx → (mapNthIncomplete ts p f)[j]? = ts[j]?) := by
  intro ts
  induction ts with
  | nil =>
    intro p h1 h2
    rw [countIncomplete_nil] at h2
    omega
  | cons t ts ih =>
    intro p h1 h2
    rw [countIncomplete_cons] at h2
    by_cases hc : t.completed_at = none
    · by_cases hp : p = 1
      · subst hp
        refine ⟨0, t, by simp, by simp, hc, by simp [countIncomplete_nil], ?_, ?_⟩
        · simp [mapNthIncomplete, hc]
        · intro j hj
          cases j with
          | zero => exact absurd rfl hj
          | succ j => simp [mapNthIncomplete, hc]
      · rw [if_pos hc] at h2
        obtain ⟨idx, t0, hlt, hts, hco, hcnt, hmap, hframe⟩ :=
          ih (p - 1) (by omega) (by omega)
        refine ⟨idx + 1, t0, by simpa using hlt, by simpa using hts, hco, ?_, ?_, ?_⟩
        · rw [List.take_succ_cons, countIncomplete_cons, if_pos hc, hcnt]
          omega
        · simpa [mapNthIncomplete, hc, hp] using hmap
        · intro j hj
          cases j with
          | zero => simp [mapNthIncomplete, hc, hp]
          | succ j => simpa [mapNthIncomplete, hc, hp] using hframe j (by omega)
    · rw [if_neg hc] at h2
      obtain ⟨idx, t0, hlt, hts, hco, hcnt, hmap, hframe⟩ := ih p h1 (by omega)
      refine ⟨idx + 1, t0, by simpa using hlt, by simpa using hts, hco, ?_, ?_, ?_⟩
      · rw [List.take_succ_cons, countIncomplete_cons, if_neg hc, hcnt]
        omega
      · simpa [mapNthIncomplete, hc] using hmap
      · intro j hj
        cases j with
        | zero => simp [mapNthIncomplete, hc]
        | succ j => simpa [mapNthIncomplete, hc] using hframe j (by omega)

/-! ## Lemmas: rendering of list output -/

lemma renderLines_getElem? (tz : Int) : ∀ (l : List Task) (o j : Nat),
    (renderLines tz o l)[j]? =
      (l[j]?).map (fun t => natRepr (o + j) ++ '.' :: ' ' :: displayTask tz t) := by
  intro l
  induction l with
  | nil => intro o j; simp [renderLines]
  | cons t rest ih =>
    intro o j
    cases j with
    | zero => simp [renderLines]
    | succ j =>
      rw [show o + (j + 1) = (o + 1) + j from by omega]
      simpa [renderLines] using ih (o + 1) j

/-! ## Lemmas: the operations on canonically serialized journals -/

lemma tasksTail_append_single (l : List Task) (t : Task) :
    tasksTail (l ++ [t]) = tasksTail l ++ ',' :: serializeTask t := by
  simp [tasksTail]

lemma serializeTasks_length_mono (ts : List Task) (t : Task) :
    (serializeTasks ts).length ≤ (serializeTasks (ts ++ [t])).length := by
  cases ts with
  | nil =>
    have := serializeTask_length_pos t
    simp [serializeTasks, tasksTail]
  | cons u l =>
    have := serializeTask_length_pos t
    simp only [List.cons_append, serializeTasks, tasksTail_append_single, List.length_append,
      List.length_cons]
    omega

lemma overwriteFrom_of_le (old new : List Char) (h : old.length ≤ new.length) :
    overwriteFrom old new = new := by
  simp [overwriteFrom, List.drop_eq_nil_of_le h]

lemma add_task_canonical (ts : List Task) (t : Task) :
    add_task (some (serializeTasks ts)) t = (some (serializeTasks (ts ++ [t])), none) := by
  simp [add_task, collect_serializeTasks,
    overwriteFrom_of_le _ _ (serializeTasks_length_mono ts t)]

lemma add_task_missing (t : Task) :
    add_task none t = (some (serializeTasks [t]), none) := by
  have h : collect_task [] = .ok [] := rfl
  simp [add_task, h, overwriteFrom]

lemma complete_task_canonical (ts : List Task) (p : Nat) (now : Int)
    (h1 : 1 ≤ p) (h2 : p ≤ countIncomplete ts) :
    complete_task (some (serializeTasks ts)) p now =
      (some (serializeTasks
        (mapNthIncomplete ts p (fun t => { t with completed_at := some now }))), none) := by
  simp only [complete_task, collect_serializeTasks]
  rw [if_neg (by omega : ¬(p = 0 ∨ p > countIncomplete ts))]

lemma complete_task_invalid (ts : List Task) (p : Nat) (now : Int)
    (h : p = 0 ∨ p > countIncomplete ts) :
    complete_task (some (serializeTasks ts)) p now =
      (some (serializeTasks ts), some .invalidPosition) := by
  simp only [complete_task, collect_serializeTasks]
  rw [if_pos h]

lemma edit_task_canonical (ts : List Task) (p : Nat) (text : List Char)
    (h1 : 1 ≤ p) (h2 : p ≤ countIncomplete ts) :
    edit_task (some (serializeTasks ts)) p text =
      (some (serializeTasks
        (mapNthIncomplete ts p (fun t => { t with text := text }))), none) := by
  simp only [edit_task, collect_serializeTasks]
  rw [if_neg (by omega : ¬(p = 0 ∨ p > countIncomplete ts))]

lemma edit_task_invalid (ts : List Task) (p : Nat) (text : List Char)
    (h : p = 0 ∨ p > countIncomplete ts) :
    edit_task (some (serializeTasks ts)) p text =
      (some (serializeTasks ts), some .invalidPosition) := by
  simp only [edit_task, collect_serializeTasks]
  rw [if_pos h]

lemma list_tasks_canonical (tz : Int) (ts : List Task) :
    list_tasks tz (some (serializeTasks ts)) =
      (some (serializeTasks ts),
        .ok (if ts.isEmpty then ["Task list is empty!".toList]
             else renderLines tz 1 (ts.filter (fun t => t.completed_at = none)))) := by
  simp only [list_tasks, collect_serializeTasks]
  split <;> rfl

lemma list_completed_tasks_canonical (tz : Int) (ts : List Task) :
    list_completed_tasks tz (some (serializeTasks ts)) =
      (some (serializeTasks ts),
        .ok (if ts.isEmpty then ["Task list is empty!".toList]
             else renderLines tz 1 (ts.filter (fun t => t.completed_at ≠ none)))) := by
  simp only [list_completed_tasks, collect_serializeTasks]
  split <;> rfl

lemma add_task_empty_content (t : Task) :
    add_task (some []) t = (some (serializeTasks [t]), none) := by
  have h : collect_task [] = .ok [] := rfl
  simp [add_task, h, overwriteFrom]

/-! ## Claims -/

/-- C1: for every journal and every valid position `p` (1-based, at most
the number of tasks with `completed_at = none`), `complete` sets
`completed_at` to the current time on exactly the `p`-th entry of the
incomplete sub-sequence (the entry with `p - 1` incomplete tasks before
it in stored order), leaves every other task unchanged, preserves the
length and order of the full sequence, and rewrites the full sequence to
the file. -/
theorem c1_complete_valid_position (ts : List Task) (p : Nat) (now : Int)
    (h1 : 1 ≤ p) (h2 : p ≤ countIncomplete ts) :
    ∃ ts2,
      complete_task (some (serializeTasks ts)) p now = (some (serializeTasks ts2), none) ∧
      ts2.length = ts.length ∧
      ∃ idx t0,
        idx < ts.length ∧
        ts[idx]? = some t0 ∧
        t0.completed_at = none ∧
        countIncomplete (ts.take idx) = p - 1 ∧
        ts2[idx]? = some ⟨t0.text, t0.create_at, some now⟩ ∧
        ∀ j, j ≠ idx → ts2[j]? = ts[j]? := by
  refine ⟨mapNthIncomplete ts p (fun t => { t with completed_at := some now }),
    complete_task_canonical ts p now h1 h2, mapNthIncomplete_length ts p _, ?_⟩
  obtain ⟨idx, t0, hlt, hts, hco, hcnt, hmap, hframe⟩ :=
    mapNthIncomplete_spec (fun t => { t with completed_at := some now }) ts p h1 h2
  exact ⟨idx, t0, hlt, hts, hco, hcnt, hmap, hframe⟩

theorem c1_complete_valid_position_witness :
    (1 ≤ 2 ∧ 2 ≤ countIncomplete [⟨['a'], 0, none⟩, ⟨['b'], 1, none⟩]) ∧
    ∃ ts2,
      complete_task (some (serializeTasks [⟨['a'], 0, none⟩, ⟨['b'], 1, none⟩])) 2 5 =
        (some (serializeTasks ts2), none) ∧
      ts2.length = ([⟨['a'], 0, none⟩, ⟨['b'], 1, none⟩] : List Task).length ∧
      ∃ idx t0,
        idx < ([⟨['a'], 0, none⟩, ⟨['b'], 1, none⟩] : List Task).length ∧
        ([⟨['a'], 0, none⟩, ⟨['b'], 1, none⟩] : List Task)[idx]? = some t0 ∧
        t0.completed_at = none ∧
        countIncomplete (([⟨['a'], 0, none⟩, ⟨['b'], 1, none⟩] : List Task).take idx) = 2 - 1 ∧
        ts2[idx]? = some ⟨t0.text, t0.create_at, some 5⟩ ∧
        ∀ j, j ≠ idx → ts2[j]? = ([⟨['a'], 0, none⟩, ⟨['b'], 1, none⟩] : List Task)[j]? :=
  ⟨⟨by decide, by decide⟩,
    c1_complete_valid_position [⟨['a'], 0, none⟩, ⟨['b'], 1, none⟩] 2 5 (by decide) (by decide)⟩

/-- C2: for every journal, a position of 0 or above the number of
incomplete tasks makes `complete` and `edit` report the invalid-position
error with the file content byte-for-byte unchanged (the check happens
before any truncation or write). -/
theorem c2_invalid_position_unchanged (ts : List Task) (p : Nat) (now : Int) (text : List Char)
    (h : p = 0 ∨ p > countIncomplete ts) :
    complete_task (some (serializeTasks ts)) p now =
      (some (serializeTasks ts), some .invalidPosition) ∧
    edit_task (some (serializeTasks ts)) p text =
      (some (serializeTasks ts), some .invalidPosition) :=
  ⟨complete_task_invalid ts p now h, edit_task_invalid ts p text h⟩

theorem c2_invalid_position_unchanged_witness :
    (2 = 0 ∨ 2 > countIncomplete [⟨['a'], 0, none⟩]) ∧
    (complete_task (some (serializeTasks [⟨['a'], 0, none⟩])) 2 7 =
        (some (serializeTasks [⟨['a'], 0, none⟩]), some .invalidPosition) ∧
      edit_task (some (serializeTasks [⟨['a'], 0, none⟩])) 2 ['z'] =
        (some (serializeTasks [⟨['a'], 0, none⟩]), some .invalidPosition)) :=
  ⟨by decide, c2_invalid_position_unchanged [⟨['a'], 0, none⟩] 2 7 ['z'] (by decide)⟩

/-- C5 (corrected, counterexample): the claim says that for EVERY file
holding a valid task array, `add` leaves the file equal to exactly the
serialization of the appended sequence.  `add_task` never truncates, so
a valid file that is longer than the canonical serialization of its
tasks (here `[` followed by 60 spaces and `]`, which parses as the empty
array) keeps leftover trailing bytes after the new content. -/
theorem c5_add_no_truncate_counterexample :
    collect_task ('[' :: (List.replicate 60 ' ' ++ [']'])) = .ok [] ∧
    add_task (some ('[' :: (List.replicate 60 ' ' ++ [']']))) ⟨['a'], 0, none⟩ ≠
      (some (serializeTasks (([] : List Task) ++ [⟨['a'], 0, none⟩])), none) :=
  ⟨rfl, by decide⟩

/-- C5 (amended): for every journal file whose content is exactly the
canonical serialization of its task sequence — which is what the tool
itself writes — `add` appends the new task at the end and leaves the
file content exactly the serialization of the appended sequence (no
truncation is needed because the serialization never shrinks under
append); `add` on a missing file creates it with the one-task array.
On a valid file longer than the canonical serialization, trailing bytes
of the old content survive, because `add_task` does not truncate. -/
theorem c5_add_append_amended (ts : List Task) (t : Task) :
    add_task (some (serializeTasks ts)) t = (some (serializeTasks (ts ++ [t])), none) ∧
    add_task none t = (some (serializeTasks [t]), none) :=
  ⟨add_task_canonical ts t, add_task_missing t⟩

/-- C6 (corrected, counterexample): the claim says only a zero-byte /
newly-created file decodes as the empty sequence, and any other parse
failure propagates.  The file `[` is non-empty and malformed (its parse
fails), yet `collect_task` returns the empty list instead of an error,
because the code maps EVERY end-of-input parse error to an empty list,
not just the zero-byte case. -/
theorem c6_eof_counterexample :
    ("[".toList ≠ ([] : List Char)) ∧
    parseTasks ("[".toList) = .error .eof ∧
    collect_task ("[".toList) = .ok [] :=
  ⟨by decide, rfl, rfl⟩

/-- C6 (amended): `collect_task` parses the whole file as a JSON array;
every parse error of end-of-input kind (`is_eof()`, which covers a
zero-byte file but also any truncated content such as `[`) decodes as
the empty sequence, while every non-EOF parse failure propagates as an
error. -/
theorem c6_load_amended :
    collect_task [] = .ok [] ∧
    (∀ content, parseTasks content = .error .eof → collect_task content = .ok []) ∧
    (∀ content, parseTasks content = .error .other → collect_task content = .error .parseError) ∧
    (∀ content ts, parseTasks content = .ok ts → collect_task content = .ok ts) := by
  refine ⟨rfl, ?_, ?_, ?_⟩
  · intro content h; simp [collect_task, h]
  · intro content h; simp [collect_task, h]
  · intro content ts h; simp [collect_task, h]

theorem c6_load_amended_witness :
    collect_task ("[".toList) = .ok [] ∧
    collect_task ("x".toList) = .error .parseError ∧
    collect_task ("[]".toList) = .ok [] :=
  ⟨c6_load_amended.2.1 ("[".toList) rfl, c6_load_amended.2.2.1 ("x".toList) rfl,
    c6_load_amended.2.2.2 ("[]".toList) [] rfl⟩

/-- C7: round-trip — serializing any task sequence to the journal file
and reloading it yields the same tasks, in the same order, with
identical `text`, `create_at` and `completed_at` (timestamps are stored
as integer seconds, so integer-second precision is exact equality in
this model). -/
theorem c7_roundtrip (ts : List Task) :
    collect_task (serializeTasks ts) = .ok ts :=
  collect_serializeTasks ts

/-- C10: only `add` opens the journal with `create`; on a missing file
`add` creates it and writes the one-task array, while `complete`,
`edit`, `list` and `list-completed` fail with the file-not-found I/O
error instead of treating the journal as empty. -/
theorem c10_only_add_creates (t : Task) (p : Nat) (now : Int) (text : List Char) (tz : Int) :
    add_task none t = (some (serializeTasks [t]), none) ∧
    complete_task none p now = (none, some .notFound) ∧
    edit_task none p text = (none, some .notFound) ∧
    list_tasks tz none = (none, .error .notFound) ∧
    list_completed_tasks tz none = (none, .error .notFound) :=
  ⟨add_task_missing t, rfl, rfl, rfl, rfl⟩

/-- C3: `list` prints the tasks with `completed_at = none` in their
stored order, each line being the 1-based rank within the filtered view,
then `". "`, then the formatted task; `list-completed` does the same
over tasks with `completed_at ≠ none`.  The "Task list is empty!" notice
appears exactly when the full raw sequence is empty; a non-empty raw
sequence whose filtered view is empty prints nothing. -/
theorem c3_list_output (tz : Int) (ts : List Task) :
    (ts = [] →
      (list_tasks tz (some (serializeTasks ts))).2 = .ok ["Task list is empty!".toList] ∧
      (list_completed_tasks tz (some (serializeTasks ts))).2 =
        .ok ["Task list is empty!".toList]) ∧
    (ts ≠ [] →
      (∃ L, (list_tasks tz (some (serializeTasks ts))).2 = .ok L ∧
        ∀ j : Nat, L[j]? = ((ts.filter (fun t => t.completed_at = none))[j]?).map
          (fun t => natRepr (1 + j) ++ '.' :: ' ' :: displayTask tz t)) ∧
      (∃ L, (list_completed_tasks tz (some (serializeTasks ts))).2 = .ok L ∧
        ∀ j : Nat, L[j]? = ((ts.filter (fun t => t.completed_at ≠ none))[j]?).map
          (fun t => natRepr (1 + j) ++ '.' :: ' ' :: displayTask tz t)) ∧
      (ts.filter (fun t => t.completed_at = none) = [] →
        (list_tasks tz (some (serializeTasks ts))).2 = .ok [])) := by
  constructor
  · rintro rfl
    constructor <;> simp [list_tasks_canonical, list_completed_tasks_canonical]
  · intro hne
    have hempty : ts.isEmpty = false := by
      rcases ts with _ | _
      · exact absurd rfl hne
      · rfl
    refine ⟨⟨renderLines tz 1 (ts.filter (fun t => t.completed_at = none)), ?_, ?_⟩,
      ⟨renderLines tz 1 (ts.filter (fun t => t.completed_at ≠ none)), ?_, ?_⟩, ?_⟩
    · rw [list_tasks_canonical, hempty]
      simp
    · intro j
      exact renderLines_getElem? tz (ts.filter (fun t => t.completed_at = none)) 1 j
    · rw [list_completed_tasks_canonical, hempty]
      simp
    · intro j
      exact renderLines_getElem? tz (ts.filter (fun t => t.completed_at ≠ none)) 1 j
    · intro hfil
      rw [list_tasks_canonical, hempty, hfil]
      simp [renderLines]

theorem c3_list_output_witness :
    ((list_tasks 0 (some (serializeTasks ([] : List Task)))).2 =
        .ok ["Task list is empty!".toList] ∧
      (list_completed_tasks 0 (some (serializeTasks ([] : List Task)))).2 =
        .ok ["Task list is empty!".toList]) ∧
    (∃ L, (list_tasks 0 (some (serializeTasks [(⟨['a'], 0, none⟩ : Task)]))).2 = .ok L ∧
      ∀ j : Nat,
        L[j]? = (([(⟨['a'], 0, none⟩ : Task)].filter (fun t => t.completed_at = none))[j]?).map
          (fun t => natRepr (1 + j) ++ '.' :: ' ' :: displayTask 0 t)) :=
  ⟨(c3_list_output 0 []).1 rfl, ((c3_list_output 0 [⟨['a'], 0, none⟩]).2 (by decide)).1⟩

/-- C9: for every journal and every valid position `p` into the
incomplete sub-sequence, `edit` replaces only the `text` field of the
`p`-th incomplete task in place (keeping its `create_at` and
`completed_at`), leaves every other task unchanged, and rewrites the
full sequence to the file. -/
theorem c9_edit_valid_position (ts : List Task) (p : Nat) (newText : List Char)
    (h1 : 1 ≤ p) (h2 : p ≤ countIncomplete ts) :
    ∃ ts2,
      edit_task (some (serializeTasks ts)) p newText = (some (serializeTasks ts2), none) ∧
      ts2.length = ts.length ∧
      ∃ idx t0,
        idx < ts.length ∧
        ts[idx]? = some t0 ∧
        t0.completed_at = none ∧
        countIncomplete (ts.take idx) = p - 1 ∧
        ts2[idx]? = some ⟨newText, t0.create_at, t0.completed_at⟩ ∧
        ∀ j, j ≠ idx → ts2[j]? = ts[j]? := by
  refine ⟨mapNthIncomplete ts p (fun t => { t with text := newText }),
    edit_task_canonical ts p newText h1 h2, mapNthIncomplete_length ts p _, ?_⟩
  obtain ⟨idx, t0, hlt, hts, hco, hcnt, hmap, hframe⟩ :=
    mapNthIncomplete_spec (fun t => { t with text := newText }) ts p h1 h2
  exact ⟨idx, t0, hlt, hts, hco, hcnt, hmap, hframe⟩

theorem c9_edit_valid_position_witness :
    (1 ≤ 1 ∧ 1 ≤ countIncomplete [⟨['a'], 0, none⟩, ⟨['b'], 1, none⟩]) ∧
    ∃ ts2,
      edit_task (some (serializeTasks [⟨['a'], 0, none⟩, ⟨['b'], 1, none⟩])) 1
          ("a-renamed".toList) = (some (serializeTasks ts2), none) ∧
      ts2.length = ([⟨['a'], 0, none⟩, ⟨['b'], 1, none⟩] : List Task).length ∧
      ∃ idx t0,
        idx < ([⟨['a'], 0, none⟩, ⟨['b'], 1, none⟩] : List Task).length ∧
        ([⟨['a'], 0, none⟩, ⟨['b'], 1, none⟩] : List Task)[idx]? = some t0 ∧
        t0.completed_at = none ∧
        countIncomplete (([⟨['a'], 0, none⟩, ⟨['b'], 1, none⟩] : List Task).take idx) = 1 - 1 ∧
        ts2[idx]? = some ⟨"a-renamed".toList, t0.create_at, t0.completed_at⟩ ∧
        ∀ j, j ≠ idx → ts2[j]? = ([⟨['a'], 0, none⟩, ⟨['b'], 1, none⟩] : List Task)[j]? :=
  ⟨⟨by decide, by decide⟩,
    c9_edit_valid_position [⟨['a'], 0, none⟩, ⟨['b'], 1, none⟩] 1 ("a-renamed".toList)
      (by decide) (by decide)⟩

/-- C4 (corrected, counterexample): the claim says that after starting
from an empty journal, `add "buy milk"` and `done 1`, `list` prints
"Task list is empty!".  In the code the notice is printed only when the
RAW sequence is empty; here the raw sequence still holds the one (now
completed) task, so `list` filters it out and prints nothing at all. -/
theorem c4_scenario_counterexample :
    (list_tasks 0 (complete_task (add_task (some []) ⟨"buy milk".toList, 0, none⟩).1 1 5).1).2 =
      .ok [] ∧
    (([] : List (List Char)) ≠ ["Task list is empty!".toList]) :=
  ⟨rfl, by decide⟩

/-- C4 (amended): starting from an empty or nonexistent journal file,
after `add "buy milk"` and `done 1`, `list` prints nothing (no lines and
no notice, because the raw sequence is non-empty while its incomplete
view is empty), and `list-completed` prints the completed entry as line
1, whose formatted text carries the completion timestamp in its
`(completed at ...)` suffix. -/
theorem c4_scenario_amended (t0 t1 tz : Int) :
    (list_tasks tz (complete_task (add_task (some []) ⟨"buy milk".toList, t0, none⟩).1 1 t1).1).2 =
      .ok [] ∧
    (list_tasks tz (complete_task (add_task none ⟨"buy milk".toList, t0, none⟩).1 1 t1).1).2 =
      .ok [] ∧
    (list_completed_tasks tz
        (complete_task (add_task (some []) ⟨"buy milk".toList, t0, none⟩).1 1 t1).1).2 =
      .ok [natRepr 1 ++ '.' :: ' ' :: displayTask tz ⟨"buy milk".toList, t0, some t1⟩] ∧
    displayTask tz ⟨"buy milk".toList, t0, some t1⟩ =
      ("buy milk".toList ++ List.replicate 72 ' ') ++ ' ' :: '[' :: fmtLocal tz t0 ++
        ']' :: ' ' :: '(' :: 'c' :: 'o' :: 'm' :: 'p' :: 'l' :: 'e' :: 't' :: 'e' :: 'd' ::
          ' ' :: 'a' :: 't' :: ' ' :: fmtLocal tz t1 ++ [')'] := by
  have hadd1 : (add_task (some []) ⟨"buy milk".toList, t0, none⟩).1 =
      some (serializeTasks [⟨"buy milk".toList, t0, none⟩]) := by
    rw [add_task_empty_content]
  have hadd2 : (add_task none ⟨"buy milk".toList, t0, none⟩).1 =
      some (serializeTasks [⟨"buy milk".toList, t0, none⟩]) := by
    rw [add_task_missing]
  have hcnt : countIncomplete [(⟨"buy milk".toList, t0, none⟩ : Task)] = 1 := by
    simp [countIncomplete]
  have hmap : mapNthIncomplete [⟨"buy milk".toList, t0, none⟩] 1
      (fun t => { t with completed_at := some t1 }) = [⟨"buy milk".toList, t0, some t1⟩] := by
    simp [mapNthIncomplete]
  have hcompl : (complete_task (some (serializeTasks [⟨"buy milk".toList, t0, none⟩])) 1 t1).1 =
      some (serializeTasks [⟨"buy milk".toList, t0, some t1⟩]) := by
    rw [complete_task_canonical _ 1 t1 (le_refl 1) (by rw [hcnt]), hmap]
  have hfil : ([(⟨"buy milk".toList, t0, some t1⟩ : Task)].filter
      (fun t => t.completed_at = none)) = [] := by simp
  have hfil2 : ([(⟨"buy milk".toList, t0, some t1⟩ : Task)].filter
      (fun t => t.completed_at ≠ none)) = [⟨"buy milk".toList, t0, some t1⟩] := by simp
  refine ⟨?_, ?_, ?_, ?_⟩
  · rw [hadd1, hcompl, list_tasks_canonical]
    simp [hfil, renderLines]
  · rw [hadd2, hcompl, list_tasks_canonical]
    simp [hfil, renderLines]
  · rw [hadd1, hcompl, list_completed_tasks_canonical]
    simp [hfil2, renderLines]
  · have hw : strWidth ("buy milk".toList) = 8 := rfl
    simp only [displayTask, hw]
    norm_num

/-- C8: tasks move only one way, from Incomplete to Completed, and only
`complete` moves them: on a canonical journal, `add` appends and leaves
every existing index unchanged; a valid `complete` either leaves a task
unchanged or turns an incomplete task into the same task completed at
`now`; a valid `edit` either leaves a task unchanged or replaces only
the text of an incomplete task, never touching any `completed_at`; an
invalid position leaves the file unchanged; and the two list commands
never write.  In particular no operation clears a set `completed_at`,
changes it to a different time, or edits the text of a completed
task. -/
theorem c8_one_way_transitions (ts : List Task) (t : Task) (p : Nat) (now : Int)
    (newText : List Char) (tz : Int) (h1 : 1 ≤ p) (h2 : p ≤ countIncomplete ts) :
    (add_task (some (serializeTasks ts)) t = (some (serializeTasks (ts ++ [t])), none) ∧
      ∀ j, j < ts.length → (ts ++ [t])[j]? = ts[j]?) ∧
    (complete_task (some (serializeTasks ts)) p now =
        (some (serializeTasks
          (mapNthIncomplete ts p (fun u => { u with completed_at := some now }))), none) ∧
      ∀ j : Nat,
        (mapNthIncomplete ts p (fun u => { u with completed_at := some now }))[j]? = ts[j]? ∨
        ∃ t0 : Task, ts[j]? = some t0 ∧ t0.completed_at = none ∧
          (mapNthIncomplete ts p (fun u => { u with completed_at := some now }))[j]? =
            some ⟨t0.text, t0.create_at, some now⟩) ∧
    (edit_task (some (serializeTasks ts)) p newText =
        (some (serializeTasks
          (mapNthIncomplete ts p (fun u => { u with text := newText }))), none) ∧
      ∀ j : Nat,
        (mapNthIncomplete ts p (fun u => { u with text := newText }))[j]? = ts[j]? ∨
        ∃ t0 : Task, ts[j]? = some t0 ∧ t0.completed_at = none ∧
          (mapNthIncomplete ts p (fun u => { u with text := newText }))[j]? =
            some ⟨newText, t0.create_at, t0.completed_at⟩) ∧
    (∀ p2, (p2 = 0 ∨ p2 > countIncomplete ts) →
      complete_task (some (serializeTasks ts)) p2 now =
        (some (serializeTasks ts), some .invalidPosition) ∧
      edit_task (some (serializeTasks ts)) p2 newText =
        (some (serializeTasks ts), some .invalidPosition)) ∧
    ((list_tasks tz (some (serializeTasks ts))).1 = some (serializeTasks ts) ∧
      (list_completed_tasks tz (some (serializeTasks ts))).1 = some (serializeTasks ts)) := by
  refine ⟨⟨add_task_canonical ts t, ?_⟩,
    ⟨complete_task_canonical ts p now h1 h2, ?_⟩,
    ⟨edit_task_canonical ts p newText h1 h2, ?_⟩,
    fun p2 hp2 => ⟨complete_task_invalid ts p2 now hp2, edit_task_invalid ts p2 newText hp2⟩,
    by rw [list_tasks_canonical], by rw [list_completed_tasks_canonical]⟩
  · intro j hj
    rw [List.getElem?_append, if_pos hj]
  · intro j
    exact mapNthIncomplete_frame ts p (fun u => { u with completed_at := some now }) j
  · intro j
    exact mapNthIncomplete_frame ts p (fun u => { u with text := newText }) j

theorem c8_one_way_transitions_witness :
    (1 ≤ 1 ∧ 1 ≤ countIncomplete [⟨['a'], 0, none⟩, ⟨['b'], 1, some 2⟩]) ∧
    (add_task (some (serializeTasks [⟨['a'], 0, none⟩, ⟨['b'], 1, some 2⟩])) ⟨['c'], 3, none⟩ =
        (some (serializeTasks
          ([⟨['a'], 0, none⟩, ⟨['b'], 1, some 2⟩] ++ [⟨['c'], 3, none⟩])), none) ∧
      ∀ j, j < ([⟨['a'], 0, none⟩, ⟨['b'], 1, some 2⟩] : List Task).length →
        (([⟨['a'], 0, none⟩, ⟨['b'], 1, some 2⟩] : List Task) ++ [⟨['c'], 3, none⟩])[j]? =
          ([⟨['a'], 0, none⟩, ⟨['b'], 1, some 2⟩] : List Task)[j]?) ∧
    (∀ j : Nat, (mapNthIncomplete [⟨['a'], 0, none⟩, ⟨['b'], 1, some 2⟩] 1
          (fun u => { u with completed_at := some 9 }))[j]? =
            ([⟨['a'], 0, none⟩, ⟨['b'], 1, some 2⟩] : List Task)[j]? ∨
        ∃ t0 : Task, ([⟨['a'], 0, none⟩, ⟨['b'], 1, some 2⟩] : List Task)[j]? = some t0 ∧
          t0.completed_at = none ∧
          (mapNthIncomplete [⟨['a'], 0, none⟩, ⟨['b'], 1, some 2⟩] 1
            (fun u => { u with completed_at := some 9 }))[j]? =
              some ⟨t0.text, t0.create_at, some 9⟩) :=
  ⟨⟨by decide, by decide⟩,
    (c8_one_way_transitions [⟨['a'], 0, none⟩, ⟨['b'], 1, some 2⟩] ⟨['c'], 3, none⟩ 1 9 ['z'] 0
      (by decide) (by decide)).1,
    (c8_one_way_transitions [⟨['a'], 0, none⟩, ⟨['b'], 1, some 2⟩] ⟨['c'], 3, none⟩ 1 9 ['z'] 0
      (by decide) (by decide)).2.1.2⟩

end RustyJournal
